import Mathlib

set_option maxHeartbeats 1000000

/-!
Shallow embedding of `tkool_face_generator.py` (TkoolFaceGenerator).

The two functions under verification are `process_images` and
`create_zip_file`.  Rasters are modelled as a width, a height and a pixel
function; the imaging library operations the code delegates to
(`Image.new`, `Image.resize`, `Image.crop`, `Image.paste`) are given
explicit pixel-level semantics below, next to the definition that models
each call.  The Streamlit diagnostic calls (`st.info` / `st.warning` /
`st.error`) are modelled as an explicit list of diagnostic records.
-/

/-- An RGBA pixel; `a` is the alpha channel (0 = fully transparent). -/
structure Pixel where
  r : Nat
  g : Nat
  b : Nat
  a : Nat
  deriving DecidableEq, Repr

/-- The fill value of `Image.new('RGBA', size, color=(0, 0, 0, 0))` and the
padding value PIL uses for crop boxes that leave the source image. -/
def Pixel.transparent : Pixel := ⟨0, 0, 0, 0⟩

/-- An in-memory decoded raster.  The embedding keeps every image in RGBA
(`Pixel` carries the alpha channel), so the code's
`img.convert('RGBA')` step is the identity here. -/
structure Img where
  width : Nat
  height : Nat
  pix : Nat → Nat → Pixel

/-- Models `Image.new('RGBA', (w, h), color=(0, 0, 0, 0))`: a raster of the
given size entirely filled with fully transparent pixels. -/
def newImg (w h : Nat) : Img := ⟨w, h, fun _ _ => Pixel.transparent⟩

/-- Models `img.resize((W, H), Image.Resampling.LANCZOS)`.  The dimensions
of the result are exact; the LANCZOS resampling itself is modelled by a
simple sampling of the source raster (the spec constrains only the
dimensions of resized images, never the resampled pixel values). -/
def imgResize (W H : Nat) (img : Img) : Img :=
  ⟨W, H, fun x y => img.pix (x * img.width / W) (y * img.height / H)⟩

/-- Models `img.crop((left, upper, right, lower))`: the result has size
`(right - left) × (lower - upper)` and reads pixel `(left + x, upper + y)`
of the source; coordinates outside the source are padded with transparent
pixels, as PIL does. -/
def cropImg (img : Img) (left upper right lower : Int) : Img :=
  { width := (right - left).toNat
    height := (lower - upper).toNat
    pix := fun x y =>
      if 0 ≤ left + x ∧ left + x < (img.width : Int) ∧
         0 ≤ upper + y ∧ upper + y < (img.height : Int) then
        img.pix (left + x).toNat (upper + y).toNat
      else Pixel.transparent }

/-- Models `sheet.paste(img, (px, py), img)`.  The third argument makes the
pasted image's own alpha the mask; on a sheet whose pasted regions are
fully transparent (which is the only way the code uses it: disjoint slots
on a freshly allocated transparent sheet) this acts as a plain copy of the
tile into its rectangle, which is how it is modelled. -/
def pasteAt (base tile : Img) (px py : Nat) : Img :=
  { base with pix := fun x y =>
      if px ≤ x ∧ x < px + tile.width ∧ py ≤ y ∧ y < py + tile.height then
        tile.pix (x - px) (y - py)
      else base.pix x y }

/-- The numeric parameters of `process_images` (defaults in the source:
`crop_width=144, crop_height=144, columns=4, rows=2, max_width=400,
x_offset=0`). -/
structure Params where
  crop_width : Nat
  crop_height : Nat
  columns : Nat
  rows : Nat
  max_width : Nat
  x_offset : Int

/-- One element of `uploaded_files`: a display name and the result of
`Image.open` followed by the RGBA conversion.  `decoded = none` models a
file whose decoding raises, i.e. the code path caught by the
per-image `except` block. -/
structure UploadedFile where
  name : String
  decoded : Option Img

/-- One diagnostic record, modelling the `st.info` / `st.warning` /
`st.error` calls; each carries the display name of the image it is
about. -/
inductive Diag where
  | info (name : String)
  | warning (name : String)
  | error (name : String)
  deriving DecidableEq, Repr

/-- Recognizes warning diagnostics (the skip-due-to-size notices). -/
def isWarning : Diag → Bool
  | Diag.warning _ => true
  | _ => false

/-- The auto-resize step (`if w > max_width: ... img.resize(...)`).
`ratio = max_width / w` and `new_height = int(h * ratio)` are modelled as
the exact rational computation `⌊h * max_width / w⌋`, i.e. Nat division
(the Python source computes the same value through binary floating point).
Returns the (possibly resized) image together with the emitted `st.info`
diagnostics. -/
def resizeStep (p : Params) (name : String) (img : Img) : Img × List Diag :=
  if p.max_width < img.width then
    (imgResize p.max_width (img.height * p.max_width / img.width) img,
      [Diag.info name])
  else (img, [])

/-- `left = center_x - crop_width // 2 + x_offset` where
`center_x = w // 2` (both divisions are Python floor divisions of
non-negative integers, i.e. Nat divisions). -/
def cropBoxLeft (p : Params) (w : Nat) : Int :=
  ((w / 2 : Nat) : Int) - ((p.crop_width / 2 : Nat) : Int) + p.x_offset

/-- The validation `if left < 0 or right > w or lower > h` of the source,
for an image of (post-resize) size `w × h`, with `right = left +
crop_width` and `lower = 20 + crop_height`. -/
def tooSmall (p : Params) (w h : Nat) : Bool :=
  decide (cropBoxLeft p w < 0) ||
  decide ((w : Int) < cropBoxLeft p w + p.crop_width) ||
  decide (h < 20 + p.crop_height)

/-- The body of the per-image loop of `process_images`: decode (a `none`
decode models the exception caught by the `except` branch, which emits an
`st.error` and continues), convert to RGBA (identity here), auto-resize,
compute the crop box with `upper = 20`, validate, and either skip with an
`st.warning` or extract the cropped tile.  Returns the tile (if any)
together with the diagnostics the iteration emitted, in order. -/
def processOne (p : Params) (f : UploadedFile) : Option Img × List Diag :=
  match f.decoded with
  | none => (none, [Diag.error f.name])
  | some img0 =>
    let step := resizeStep p f.name img0
    let img := step.1
    let left := cropBoxLeft p img.width
    if tooSmall p img.width img.height then
      (none, step.2 ++ [Diag.warning f.name])
    else
      (some (cropImg img left 20 (left + p.crop_width) (20 + p.crop_height)),
        step.2)

/-- The `cropped_images` list of the source: the tiles of the files whose
iteration neither raised nor was skipped, in input order. -/
def croppedImages (p : Params) (files : List UploadedFile) : List Img :=
  files.filterMap (fun f => (processOne p f).1)

/-- `actual_rows = math.ceil(n / columns)`, as the exact Nat ceiling
division `(n + columns - 1) / columns` (the Python source computes the
same value through float division, exact in the source's range). -/
def actualRows (cols n : Nat) : Nat := (n + cols - 1) / cols

/-- The tile placement loop `for index, img in enumerate(sheet_images)`:
tile number `i` (counting from `i0`) is pasted at
`((i % columns) * crop_width, (i // columns) * crop_height)`. -/
def placeTiles (cw ch cols : Nat) : Nat → List Img → Img → Img
  | _, [], s => s
  | i, t :: ts, s =>
      placeTiles cw ch cols (i + 1) ts
        (pasteAt s t ((i % cols) * cw) ((i / cols) * ch))

/-- Assembly of one sheet from its group of tiles: a fresh transparent
raster of size `(crop_width * columns) × (crop_height * actual_rows)` with
the tiles pasted into their grid slots. -/
def mkSheet (p : Params) (tiles : List Img) : Img :=
  placeTiles p.crop_width p.crop_height p.columns 0 tiles
    (newImg (p.crop_width * p.columns)
      (p.crop_height * actualRows p.columns tiles.length))

/-- The decimal digit characters of `n`, most significant first — the
character list of Python's `str(n)` for a non-negative integer. -/
def decRepr (n : Nat) : List Char :=
  if n = 0 then ['0'] else (Nat.digits 10 n).reverse.map Nat.digitChar

/-- The character list of Python's `f"{n:02d}"` for a non-negative `n`:
the decimal representation, left-padded with `'0'` to at least two
digits. -/
def pad2 (n : Nat) : List Char :=
  if n < 10 then '0' :: decRepr n else decRepr n

/-- The numeric value denoted by a list of decimal digit characters
(most significant first); a left inverse of `decRepr` and `pad2`, used to
reason about injectivity of the generated filenames. -/
def charsVal (l : List Char) : Nat :=
  Nat.ofDigits 10 ((l.map (fun c => c.toNat - '0'.toNat)).reverse)

/-- The filename computation of the sheet loop:
`"Emo_sheet.png"` for sheet number 1 and
`f"Emo_sheet_{n:02d}.png"` for sheet number `n ≥ 2`. -/
def sheetFilename (n : Nat) : String :=
  if n = 1 then "Emo_sheet.png"
  else String.mk ("Emo_sheet_".data ++ pad2 n ++ ".png".data)

/-- The sheet loop `for sheet_index in range(0, total_images,
max_images_per_sheet)` over the remaining suffix of `cropped_images`:
each iteration takes the next group of at most `columns * rows` tiles,
builds its sheet and its filename from `sheet_number = sheet_index //
max_images_per_sheet + 1`, and advances `sheet_index` by the capacity.
`fuel` bounds the recursion (instantiated with the list length; the
Python loop needs no fuel because a `range` step is positive). -/
def buildGo (p : Params) : Nat → List Img → Nat → List (Img × String)
  | 0, _, _ => []
  | _ + 1, [], _ => []
  | fuel + 1, t :: ts, idx =>
      (mkSheet p ((t :: ts).take (p.columns * p.rows)),
        sheetFilename (idx / (p.columns * p.rows) + 1))
        :: buildGo p fuel ((t :: ts).drop (p.columns * p.rows))
            (idx + p.columns * p.rows)

/-- `process_images`: crop every uploaded file (skips and failures drop
out), then split the tiles into sheets.  Returns the list of
(sheet, filename) pairs, as the source does. -/
def process_images (p : Params) (files : List UploadedFile) :
    List (Img × String) :=
  buildGo p (croppedImages p files).length (croppedImages p files) 0

/-- The PNG payload written for one sheet, modelling
`sheet.save(img_buffer, format='PNG')`: PNG is lossless and keeps the
alpha channel, so the payload is modelled as the exact size and pixel
rows of the raster. -/
structure PngData where
  width : Nat
  height : Nat
  rows : List (List Pixel)
  deriving Repr

/-- Models the lossless PNG encoding of a raster: records its exact
dimensions and all of its pixels (alpha included). -/
def pngEncode (img : Img) : PngData :=
  ⟨img.width, img.height,
    (List.range img.height).map (fun y =>
      (List.range img.width).map (fun x => img.pix x y))⟩

/-- Reads pixel `(x, y)` back from an encoded PNG payload. -/
def pngPixel (d : PngData) (x y : Nat) : Pixel :=
  (d.rows.getD y []).getD x Pixel.transparent

/-- One member of the produced ZIP archive: an entry name and the PNG
payload stored under it. -/
structure ZipEntry where
  name : String
  data : PngData

/-- Models `zip_file.writestr(filename, img_buffer.getvalue())`: appends
one named entry to the archive under construction. -/
def writestr (st : List ZipEntry) (name : String) (d : PngData) :
    List ZipEntry :=
  st ++ [⟨name, d⟩]

/-- `create_zip_file`: encodes each sheet as PNG and writes it into the
archive under its filename, in input order. -/
def create_zip_file (sheets : List (Img × String)) : List ZipEntry :=
  sheets.foldl (fun st e => writestr st e.2 (pngEncode e.1)) []

/-! Concrete fixtures used by the witnesses. -/

/-- The default parameters of the source. -/
def defaultParams : Params := ⟨144, 144, 4, 2, 400, 0⟩

/-- A 300 × 300 test raster. -/
def img300 : Img := ⟨300, 300, fun x y => ⟨x % 256, y % 256, 7, 255⟩⟩

/-- An 800 × 600 test raster (wider than the default `max_width`). -/
def img800 : Img := ⟨800, 600, fun x y => ⟨x % 256, y % 256, 9, 255⟩⟩

/-- A 100 × 100 test raster (too small for the default crop). -/
def img100 : Img := ⟨100, 100, fun x y => ⟨x % 256, y % 256, 3, 255⟩⟩

/-- A 144 × 144 test tile. -/
def tileA : Img := ⟨144, 144, fun x y => ⟨x % 256, y % 256, 1, 200⟩⟩

/-- Another 144 × 144 test tile. -/
def tileB : Img := ⟨144, 144, fun x y => ⟨y % 256, x % 256, 2, 100⟩⟩

/-- Parameters with a one-tile sheet capacity (`columns = rows = 1`),
used to exercise multi-sheet batches with few images. -/
def smallParams : Params := ⟨144, 144, 1, 1, 400, 0⟩

/-- A test file that decodes to `img300`. -/
def file300 : UploadedFile := ⟨"face300.png", some img300⟩

/-- A test file that decodes to `img100` (too small for the default crop). -/
def fileSmall : UploadedFile := ⟨"small.png", some img100⟩

/-- A test file whose decoding raises. -/
def fileBroken : UploadedFile := ⟨"broken.png", none⟩

/-- Grid slot number `j` of a sheet, as a region of pixel coordinates:
the rectangle where the placement loop pastes tile number `j`. -/
def inSlot (cols cw ch j x y : Nat) : Prop :=
  (j % cols) * cw ≤ x ∧ x < (j % cols) * cw + cw ∧
  (j / cols) * ch ≤ y ∧ y < (j / cols) * ch + ch

/-! ## Theorems -/

theorem cropImg_width (img : Img) (l u r lo : Int) :
    (cropImg img l u r lo).width = (r - l).toNat := rfl

theorem cropImg_height (img : Img) (l u r lo : Int) :
    (cropImg img l u r lo).height = (lo - u).toNat := rfl

/-- C4: an image is resized iff its width strictly exceeds `max_width`
(equality is not resized); a resized image has width exactly `max_width`
and height `⌊h * max_width / w⌋`, the aspect ratio being preserved within
that rounding (`w * newH ≤ h * max_width < w * (newH + 1)`). -/
theorem resize_iff_wide (p : Params) (name : String) (img : Img) :
    (img.width ≤ p.max_width → resizeStep p name img = (img, [])) ∧
    (p.max_width < img.width →
      (resizeStep p name img).1.width = p.max_width ∧
      (resizeStep p name img).1.height =
        img.height * p.max_width / img.width ∧
      img.width * (resizeStep p name img).1.height ≤
        img.height * p.max_width ∧
      img.height * p.max_width <
        img.width * ((resizeStep p name img).1.height + 1)) := by
  constructor
  · intro hle
    unfold resizeStep
    rw [if_neg (by omega)]
  · intro hgt
    have hw : 0 < img.width := lt_of_le_of_lt (Nat.zero_le _) hgt
    unfold resizeStep
    rw [if_pos hgt]
    refine ⟨rfl, rfl, ?_, ?_⟩
    · show img.width * (img.height * p.max_width / img.width) ≤
        img.height * p.max_width
      rw [Nat.mul_comm]
      exact Nat.div_mul_le_self _ _
    · show img.height * p.max_width <
        img.width * (img.height * p.max_width / img.width + 1)
      have h1 : img.width * (img.height * p.max_width / img.width) +
          img.height * p.max_width % img.width = img.height * p.max_width :=
        Nat.div_add_mod _ _
      have h2 : img.height * p.max_width % img.width < img.width :=
        Nat.mod_lt _ hw
      calc img.height * p.max_width
          = img.width * (img.height * p.max_width / img.width) +
              img.height * p.max_width % img.width := h1.symm
        _ < img.width * (img.height * p.max_width / img.width) + img.width :=
            Nat.add_lt_add_left h2 _
        _ = img.width * (img.height * p.max_width / img.width + 1) := by ring

/-- C4, witness: an 800 × 600 image with `max_width = 400` is resized to
400 × 300; a 300 × 300 image is left unchanged. -/
theorem resize_iff_wide_witness :
    (defaultParams.max_width < img800.width ∧
      (resizeStep defaultParams "face800.png" img800).1.width = 400 ∧
      (resizeStep defaultParams "face800.png" img800).1.height = 300) ∧
    (img300.width ≤ defaultParams.max_width ∧
      resizeStep defaultParams "face300.png" img300 = (img300, [])) := by
  refine ⟨⟨by decide, ?_, ?_⟩, by decide,
    (resize_iff_wide defaultParams "face300.png" img300).1 (by decide)⟩
  · exact ((resize_iff_wide defaultParams "face800.png" img800).2
      (by decide)).1
  · have h := ((resize_iff_wide defaultParams "face800.png" img800).2
      (by decide)).2.1
    rw [h]
    decide

/-- C1: a decoded image that passes the validation yields exactly the crop
of the rectangle `left = w / 2 - crop_width / 2 + x_offset` (integer
divisions), `top = 20`, `right = left + crop_width`,
`bottom = top + crop_height` of the (possibly resized) image, and that
tile has dimensions exactly `crop_width × crop_height`. -/
theorem tile_is_exact_crop_rect (p : Params) (f : UploadedFile) (img0 : Img)
    (hdec : f.decoded = some img0)
    (hok : tooSmall p (resizeStep p f.name img0).1.width
        (resizeStep p f.name img0).1.height = false) :
    (processOne p f).1 =
      some (cropImg (resizeStep p f.name img0).1
        ((((resizeStep p f.name img0).1.width / 2 : Nat) : Int) -
          ((p.crop_width / 2 : Nat) : Int) + p.x_offset)
        20
        ((((resizeStep p f.name img0).1.width / 2 : Nat) : Int) -
          ((p.crop_width / 2 : Nat) : Int) + p.x_offset + p.crop_width)
        (20 + p.crop_height)) ∧
    (∀ t, (processOne p f).1 = some t →
      t.width = p.crop_width ∧ t.height = p.crop_height) := by
  have hmain : (processOne p f).1 =
      some (cropImg (resizeStep p f.name img0).1
        (cropBoxLeft p (resizeStep p f.name img0).1.width)
        20
        (cropBoxLeft p (resizeStep p f.name img0).1.width + p.crop_width)
        (20 + p.crop_height)) := by
    simp only [processOne, hdec]
    rw [if_neg (by simp [hok])]
  constructor
  · rw [hmain]
    rfl
  · intro t ht
    rw [hmain] at ht
    have ht2 := Option.some.inj ht
    rw [← ht2]
    constructor
    · show (cropBoxLeft p (resizeStep p f.name img0).1.width + p.crop_width -
        cropBoxLeft p (resizeStep p f.name img0).1.width).toNat = p.crop_width
      omega
    · show ((20 : Int) + p.crop_height - 20).toNat = p.crop_height
      omega

/-- C1, witness: a 300 × 300 image with the default parameters is not
resized, passes validation, and its tile is the crop of
`(78, 20, 222, 164)`, of dimensions 144 × 144. -/
theorem tile_is_exact_crop_rect_witness :
    file300.decoded = some img300 ∧
    tooSmall defaultParams
      (resizeStep defaultParams file300.name img300).1.width
      (resizeStep defaultParams file300.name img300).1.height = false ∧
    (∀ t, (processOne defaultParams file300).1 = some t →
      t.width = 144 ∧ t.height = 144) := by
  refine ⟨rfl, by decide, ?_⟩
  exact (tile_is_exact_crop_rect defaultParams file300 img300 rfl
    (by decide)).2

/-- C9: when the validation passes (and `crop_height > 0`), the crop
rectangle is fully contained in the image — `0 ≤ left`,
`right = left + crop_width ≤ width`, `0 ≤ 20 = top < bottom ≤ height` —
so every pixel read of the crop is in bounds and the transparent-padding
branch of the crop is never taken. -/
theorem crop_in_bounds (p : Params) (img : Img)
    (hok : tooSmall p img.width img.height = false)
    (hch : 0 < p.crop_height) :
    0 ≤ cropBoxLeft p img.width ∧
    cropBoxLeft p img.width + p.crop_width ≤ (img.width : Int) ∧
    (20 : Nat) < 20 + p.crop_height ∧
    20 + p.crop_height ≤ img.height ∧
    (∀ x y, x < p.crop_width → y < p.crop_height →
      (cropImg img (cropBoxLeft p img.width) 20
          (cropBoxLeft p img.width + p.crop_width)
          (20 + p.crop_height)).pix x y =
        img.pix ((cropBoxLeft p img.width).toNat + x) (20 + y)) := by
  have hok2 : (0 ≤ cropBoxLeft p img.width ∧
      cropBoxLeft p img.width + (p.crop_width : Int) ≤ (img.width : Int)) ∧
      20 + p.crop_height ≤ img.height := by
    simpa [tooSmall] using hok
  obtain ⟨⟨h1, h2⟩, h3⟩ := hok2
  refine ⟨by omega, by omega, by omega, by omega, ?_⟩
  intro x y hx hy
  show (if 0 ≤ cropBoxLeft p img.width + (x : Int) ∧
      cropBoxLeft p img.width + (x : Int) < (img.width : Int) ∧
      0 ≤ (20 : Int) + (y : Int) ∧
      (20 : Int) + (y : Int) < (img.height : Int) then
        img.pix (cropBoxLeft p img.width + (x : Int)).toNat
          ((20 : Int) + (y : Int)).toNat
      else Pixel.transparent) =
    img.pix ((cropBoxLeft p img.width).toNat + x) (20 + y)
  rw [if_pos (by omega)]
  have e1 : (cropBoxLeft p img.width + (x : Int)).toNat =
      (cropBoxLeft p img.width).toNat + x := by omega
  have e2 : ((20 : Int) + (y : Int)).toNat = 20 + y := by omega
  rw [e1, e2]

/-- C9, witness: `img300` with the default parameters passes validation,
and the crop's pixel read at `(0, 0)` is the source pixel `(78, 20)`. -/
theorem crop_in_bounds_witness :
    tooSmall defaultParams img300.width img300.height = false ∧
    0 < defaultParams.crop_height ∧
    (cropImg img300 (cropBoxLeft defaultParams img300.width) 20
        (cropBoxLeft defaultParams img300.width + defaultParams.crop_width)
        (20 + defaultParams.crop_height)).pix 0 0 =
      img300.pix ((cropBoxLeft defaultParams img300.width).toNat + 0)
        (20 + 0) := by
  refine ⟨by decide, by decide, ?_⟩
  exact (crop_in_bounds defaultParams img300 (by decide) (by decide)).2.2.2.2
    0 0 (by decide) (by decide)

theorem croppedImages_drop (p : Params) (f : UploadedFile)
    (hnone : (processOne p f).1 = none) (pre post : List UploadedFile) :
    croppedImages p (pre ++ f :: post) = croppedImages p (pre ++ post) := by
  simp [croppedImages, List.filterMap_append, List.filterMap_cons, hnone]

/-- C3: a decoded image whose post-resize size fails the crop validation
produces no tile, its iteration emits exactly one warning (naming the
image), and removing it from the batch does not change the tiles nor the
sheets produced from the remaining images; likewise an image whose
decoding raises produces no tile, emits one error naming it, and does not
abort the batch. -/
theorem skip_and_error_isolation (p : Params) (f : UploadedFile)
    (img0 : Img) (hdec : f.decoded = some img0)
    (hbad : tooSmall p (resizeStep p f.name img0).1.width
        (resizeStep p f.name img0).1.height = true) :
    (processOne p f).1 = none ∧
    (processOne p f).2.filter isWarning = [Diag.warning f.name] ∧
    (∀ pre post : List UploadedFile,
      croppedImages p (pre ++ f :: post) = croppedImages p (pre ++ post) ∧
      process_images p (pre ++ f :: post) =
        process_images p (pre ++ post)) ∧
    (∀ g : UploadedFile, g.decoded = none →
      (processOne p g).1 = none ∧
      (processOne p g).2 = [Diag.error g.name] ∧
      ∀ pre post : List UploadedFile,
        croppedImages p (pre ++ g :: post) = croppedImages p (pre ++ post) ∧
        process_images p (pre ++ g :: post) =
          process_images p (pre ++ post)) := by
  have hnone : (processOne p f).1 = none := by
    simp only [processOne, hdec]
    rw [if_pos (by simp [hbad])]
  refine ⟨hnone, ?_, ?_, ?_⟩
  · simp only [processOne, hdec]
    rw [if_pos (by simp [hbad])]
    show ((resizeStep p f.name img0).2 ++ [Diag.warning f.name]).filter
        isWarning = [Diag.warning f.name]
    unfold resizeStep
    by_cases hw : p.max_width < img0.width
    · rw [if_pos hw]
      simp [isWarning]
    · rw [if_neg hw]
      simp [isWarning]
  · intro pre post
    have hc := croppedImages_drop p f hnone pre post
    exact ⟨hc, by simp [process_images, hc]⟩
  · intro g hg
    have hgnone : (processOne p g).1 = none := by
      simp [processOne, hg]
    refine ⟨hgnone, by simp [processOne, hg], ?_⟩
    intro pre post
    have hc := croppedImages_drop p g hgnone pre post
    exact ⟨hc, by simp [process_images, hc]⟩

/-- C3, witness: a 100 × 100 image fails the default-crop validation
(`left = -22 < 0`), yields no tile, one warning naming it, and a batch of
it alone produces no sheet; a file whose decoding raises yields an error
naming it and no tile. -/
theorem skip_and_error_isolation_witness :
    fileSmall.decoded = some img100 ∧
    tooSmall defaultParams
      (resizeStep defaultParams fileSmall.name img100).1.width
      (resizeStep defaultParams fileSmall.name img100).1.height = true ∧
    (processOne defaultParams fileSmall).1 = none ∧
    (processOne defaultParams fileSmall).2.filter isWarning =
      [Diag.warning "small.png"] ∧
    croppedImages defaultParams [fileSmall] =
      croppedImages defaultParams [] ∧
    (processOne defaultParams fileBroken).1 = none ∧
    (processOne defaultParams fileBroken).2 = [Diag.error "broken.png"] := by
  have h := skip_and_error_isolation defaultParams fileSmall img100 rfl
    (by decide)
  have hb := h.2.2.2 fileBroken rfl
  exact ⟨rfl, by decide, h.1, h.2.1, (h.2.2.1 [] []).1, hb.1, hb.2.1⟩

theorem buildGo_length (p : Params) (hC : 0 < p.columns * p.rows) :
    ∀ (fuel : Nat) (l : List Img) (idx : Nat), l.length ≤ fuel →
      (buildGo p fuel l idx).length =
        (l.length + p.columns * p.rows - 1) / (p.columns * p.rows) := by
  intro fuel
  induction fuel with
  | zero =>
    intro l idx hl
    have hnil : l = [] := List.eq_nil_of_length_eq_zero (Nat.le_zero.mp hl)
    subst hnil
    simp only [buildGo, List.length_nil, Nat.zero_add]
    exact (Nat.div_eq_of_lt (by omega)).symm
  | succ fuel ih =>
    intro l idx hl
    cases l with
    | nil =>
      simp only [buildGo, List.length_nil, Nat.zero_add]
      exact (Nat.div_eq_of_lt (by omega)).symm
    | cons t ts =>
      have hl2 : ts.length + 1 ≤ fuel + 1 := by simpa using hl
      simp only [buildGo, List.length_cons]
      rw [ih ((t :: ts).drop (p.columns * p.rows)) (idx + p.columns * p.rows)
        (by simp only [List.length_drop, List.length_cons]; omega)]
      simp only [List.length_drop, List.length_cons]
      by_cases hle : p.columns * p.rows ≤ ts.length + 1
      · have heq : ts.length + 1 + p.columns * p.rows - 1 =
            (ts.length + 1 - p.columns * p.rows + p.columns * p.rows - 1) +
              p.columns * p.rows := by omega
        rw [heq, Nat.add_div_right _ hC]
      · have hz : ts.length + 1 - p.columns * p.rows = 0 := by omega
        have hone : (ts.length + 1 + p.columns * p.rows - 1) /
            (p.columns * p.rows) = 1 :=
          Nat.div_eq_of_lt_le (by omega) (by omega)
        rw [hz, hone, Nat.div_eq_of_lt (by omega)]

/-- C2: with capacity `C = columns * rows > 0`, `process_images` produces
exactly `⌈N / C⌉ = (N + C - 1) / C` sheets for `N` successfully cropped
tiles (in particular `0` sheets for `N = 0`, so empty input, or input
where every image is skipped or fails, yields an empty list). -/
theorem sheet_count_ceil (p : Params) (files : List UploadedFile)
    (hC : 0 < p.columns * p.rows) :
    (process_images p files).length =
      ((croppedImages p files).length + p.columns * p.rows - 1) /
        (p.columns * p.rows) ∧
    ((croppedImages p files).length = 0 → process_images p files = []) := by
  constructor
  · exact buildGo_length p hC _ _ 0 (le_refl _)
  · intro hN
    have hnil : croppedImages p files = [] :=
      List.eq_nil_of_length_eq_zero hN
    simp [process_images, hnil, buildGo]

/-- C2, witness: a batch of two good 300 × 300 images and one too-small
image yields two tiles, hence one sheet with the default capacity 8; the
empty batch yields no sheet. -/
theorem sheet_count_ceil_witness :
    0 < defaultParams.columns * defaultParams.rows ∧
    (process_images defaultParams [file300, fileSmall, file300]).length =
      ((croppedImages defaultParams [file300, fileSmall, file300]).length +
        defaultParams.columns * defaultParams.rows - 1) /
          (defaultParams.columns * defaultParams.rows) ∧
    process_images defaultParams [] = [] := by
  refine ⟨by decide, ?_, ?_⟩
  · exact (sheet_count_ceil defaultParams [file300, fileSmall, file300]
      (by decide)).1
  · exact (sheet_count_ceil defaultParams [] (by decide)).2 rfl

theorem buildGo_get (p : Params) (hC : 0 < p.columns * p.rows) :
    ∀ (fuel : Nat) (l : List Img) (q k : Nat)
      (h : k < (buildGo p fuel l (q * (p.columns * p.rows))).length),
      l.length ≤ fuel →
      (buildGo p fuel l (q * (p.columns * p.rows))).get ⟨k, h⟩ =
        (mkSheet p
          ((l.drop (k * (p.columns * p.rows))).take (p.columns * p.rows)),
          sheetFilename (q + k + 1)) := by
  intro fuel
  induction fuel with
  | zero =>
    intro l q k h hl
    simp [buildGo] at h
  | succ fuel ih =>
    intro l q k h hl
    cases l with
    | nil => simp [buildGo] at h
    | cons t ts =>
      cases k with
      | zero =>
        show (mkSheet p ((t :: ts).take (p.columns * p.rows)),
            sheetFilename
              (q * (p.columns * p.rows) / (p.columns * p.rows) + 1)) = _
        rw [Nat.mul_div_cancel q hC]
        simp
      | succ k =>
        have hl2 : ts.length + 1 ≤ fuel + 1 := by simpa using hl
        have hstep : q * (p.columns * p.rows) + p.columns * p.rows =
            (q + 1) * (p.columns * p.rows) := by ring
        have hlist : buildGo p (fuel + 1) (t :: ts)
              (q * (p.columns * p.rows)) =
            (mkSheet p ((t :: ts).take (p.columns * p.rows)),
              sheetFilename
                (q * (p.columns * p.rows) / (p.columns * p.rows) + 1)) ::
              buildGo p fuel ((t :: ts).drop (p.columns * p.rows))
                ((q + 1) * (p.columns * p.rows)) := by
          rw [buildGo, hstep]
        have hlen := congrArg List.length hlist
        simp only [List.length_cons] at hlen
        have h2 : k < (buildGo p fuel ((t :: ts).drop (p.columns * p.rows))
            ((q + 1) * (p.columns * p.rows))).length := by omega
        rw [List.get_of_eq hlist]
        show (buildGo p fuel ((t :: ts).drop (p.columns * p.rows))
            ((q + 1) * (p.columns * p.rows))).get ⟨k, h2⟩ =
          (mkSheet p
            (((t :: ts).drop ((k + 1) * (p.columns * p.rows))).take
              (p.columns * p.rows)),
            sheetFilename (q + (k + 1) + 1))
        rw [ih ((t :: ts).drop (p.columns * p.rows)) (q + 1) k h2
          (by simp only [List.length_drop, List.length_cons]; omega)]
        rw [List.drop_drop]
        have e1 : p.columns * p.rows + k * (p.columns * p.rows) =
            (k + 1) * (p.columns * p.rows) := by ring
        have e2 : q + 1 + k + 1 = q + (k + 1) + 1 := by omega
        rw [e1, e2]

theorem placeTiles_width (cw ch cols : Nat) :
    ∀ (ts : List Img) (i : Nat) (s : Img),
      (placeTiles cw ch cols i ts s).width = s.width := by
  intro ts
  induction ts with
  | nil => intro i s; rfl
  | cons t ts ih => intro i s; exact ih (i + 1) _

theorem placeTiles_height (cw ch cols : Nat) :
    ∀ (ts : List Img) (i : Nat) (s : Img),
      (placeTiles cw ch cols i ts s).height = s.height := by
  intro ts
  induction ts with
  | nil => intro i s; rfl
  | cons t ts ih => intro i s; exact ih (i + 1) _

theorem placeTiles_untouched (cw ch cols : Nat) :
    ∀ (ts : List Img) (i : Nat) (s : Img) (x y : Nat),
      (∀ t ∈ ts, t.width = cw ∧ t.height = ch) →
      (∀ j, i ≤ j → j < i + ts.length → ¬ inSlot cols cw ch j x y) →
      (placeTiles cw ch cols i ts s).pix x y = s.pix x y := by
  intro ts
  induction ts with
  | nil => intro i s x y _ _; rfl
  | cons t ts ih =>
    intro i s x y hdims hout
    show (placeTiles cw ch cols (i + 1) ts
        (pasteAt s t ((i % cols) * cw) ((i / cols) * ch))).pix x y = s.pix x y
    rw [ih (i + 1) _ x y (fun u hu => hdims u (List.mem_cons_of_mem t hu))
      (fun j hj1 hj2 =>
        hout j (by omega) (by simp only [List.length_cons]; omega))]
    have hslot : ¬ inSlot cols cw ch i x y :=
      hout i (le_refl i) (by simp only [List.length_cons]; omega)
    show (if (i % cols) * cw ≤ x ∧ x < (i % cols) * cw + t.width ∧
        (i / cols) * ch ≤ y ∧ y < (i / cols) * ch + t.height then
          t.pix (x - (i % cols) * cw) (y - (i / cols) * ch)
        else s.pix x y) = s.pix x y
    rw [if_neg]
    intro hin
    obtain ⟨a1, a2, a3, a4⟩ := hin
    have hdw := (hdims t (List.mem_cons_self t ts)).1
    have hdh := (hdims t (List.mem_cons_self t ts)).2
    exact hslot ⟨a1, by omega, a3, by omega⟩

theorem not_inSlot_of_ne (cols cw ch : Nat) (i j u v : Nat) (hij : j ≠ i)
    (hu : u < cw) (hv : v < ch) :
    ¬ inSlot cols cw ch j ((i % cols) * cw + u) ((i / cols) * ch + v) := by
  intro hin
  obtain ⟨h1, h2, h3, h4⟩ := hin
  apply hij
  have hx : j % cols = i % cols := by
    have l1 : (j % cols) * cw < (i % cols + 1) * cw := by
      calc (j % cols) * cw ≤ (i % cols) * cw + u := h1
        _ < (i % cols) * cw + cw := by omega
        _ = (i % cols + 1) * cw := by ring
    have l2 : (i % cols) * cw < (j % cols + 1) * cw := by
      calc (i % cols) * cw ≤ (i % cols) * cw + u := by omega
        _ < (j % cols) * cw + cw := h2
        _ = (j % cols + 1) * cw := by ring
    have m1 := lt_of_mul_lt_mul_right l1 (Nat.zero_le cw)
    have m2 := lt_of_mul_lt_mul_right l2 (Nat.zero_le cw)
    omega
  have hy : j / cols = i / cols := by
    have l1 : (j / cols) * ch < (i / cols + 1) * ch := by
      calc (j / cols) * ch ≤ (i / cols) * ch + v := h3
        _ < (i / cols) * ch + ch := by omega
        _ = (i / cols + 1) * ch := by ring
    have l2 : (i / cols) * ch < (j / cols + 1) * ch := by
      calc (i / cols) * ch ≤ (i / cols) * ch + v := by omega
        _ < (j / cols) * ch + ch := h4
        _ = (j / cols + 1) * ch := by ring
    have m1 := lt_of_mul_lt_mul_right l1 (Nat.zero_le ch)
    have m2 := lt_of_mul_lt_mul_right l2 (Nat.zero_le ch)
    omega
  have e1 : cols * (i / cols) + i % cols = i := Nat.div_add_mod i cols
  have e2 : cols * (j / cols) + j % cols = j := Nat.div_add_mod j cols
  rw [hx, hy] at e2
  exact e2.symm.trans e1

theorem placeTiles_pix_at (cw ch cols : Nat) :
    ∀ (ts : List Img) (k i : Nat) (hi : i < ts.length) (s : Img) (u v : Nat),
      (∀ t ∈ ts, t.width = cw ∧ t.height = ch) → u < cw → v < ch →
      (placeTiles cw ch cols k ts s).pix
          (((k + i) % cols) * cw + u) (((k + i) / cols) * ch + v) =
        (ts.get ⟨i, hi⟩).pix u v := by
  intro ts
  induction ts with
  | nil => intro k i hi; simp at hi
  | cons t ts ih =>
    intro k i hi s u v hdims hu hv
    cases i with
    | zero =>
      show (placeTiles cw ch cols (k + 1) ts
          (pasteAt s t ((k % cols) * cw) ((k / cols) * ch))).pix
            (((k + 0) % cols) * cw + u) (((k + 0) / cols) * ch + v) =
        t.pix u v
      simp only [Nat.add_zero]
      rw [placeTiles_untouched cw ch cols ts (k + 1) _ _ _
        (fun w hw => hdims w (List.mem_cons_of_mem t hw))
        (fun j hj1 hj2 => not_inSlot_of_ne cols cw ch k j u v
          (by omega) hu hv)]
      show (if (k % cols) * cw ≤ (k % cols) * cw + u ∧
          (k % cols) * cw + u < (k % cols) * cw + t.width ∧
          (k / cols) * ch ≤ (k / cols) * ch + v ∧
          (k / cols) * ch + v < (k / cols) * ch + t.height then
            t.pix ((k % cols) * cw + u - (k % cols) * cw)
              ((k / cols) * ch + v - (k / cols) * ch)
          else s.pix ((k % cols) * cw + u) ((k / cols) * ch + v)) =
        t.pix u v
      have hdw := (hdims t (List.mem_cons_self t ts)).1
      have hdh := (hdims t (List.mem_cons_self t ts)).2
      rw [if_pos (by omega)]
      have e1 : (k % cols) * cw + u - (k % cols) * cw = u := by omega
      have e2 : (k / cols) * ch + v - (k / cols) * ch = v := by omega
      rw [e1, e2]
    | succ i =>
      have hi2 : i < ts.length := by
        have h2 := hi
        simp only [List.length_cons] at h2
        omega
      show (placeTiles cw ch cols (k + 1) ts
          (pasteAt s t ((k % cols) * cw) ((k / cols) * ch))).pix
            (((k + (i + 1)) % cols) * cw + u)
            (((k + (i + 1)) / cols) * ch + v) =
        (ts.get ⟨i, hi2⟩).pix u v
      have e : k + (i + 1) = (k + 1) + i := by omega
      rw [e]
      exact ih (k + 1) i hi2 _ u v
        (fun w hw => hdims w (List.mem_cons_of_mem t hw)) hu hv

/-- C5: within a sheet, the tile with group-local 0-based index `i` is
placed at pixel position `((i mod columns) * crop_width,
(i div columns) * crop_height)`: the sheet's pixel content at that offset
is exactly the tile's content (tiles being `crop_width × crop_height`,
laid left-to-right, top-to-bottom in input order). -/
theorem tile_placement_grid (p : Params) (tiles : List Img) (i : Nat)
    (hi : i < tiles.length)
    (hdims : ∀ t ∈ tiles, t.width = p.crop_width ∧
      t.height = p.crop_height)
    (u v : Nat) (hu : u < p.crop_width) (hv : v < p.crop_height) :
    (mkSheet p tiles).pix ((i % p.columns) * p.crop_width + u)
        ((i / p.columns) * p.crop_height + v) =
      (tiles.get ⟨i, hi⟩).pix u v := by
  have h := placeTiles_pix_at p.crop_width p.crop_height p.columns tiles
    0 i hi
    (newImg (p.crop_width * p.columns)
      (p.crop_height * actualRows p.columns tiles.length))
    u v hdims hu hv
  simpa [mkSheet] using h

/-- C5, witness: in a sheet of two 144 × 144 tiles with the default
layout, tile 1 sits at `(144, 0)`: pixel `(144 + 3, 0 + 5)` of the sheet
is pixel `(3, 5)` of `tileB`. -/
theorem tile_placement_grid_witness :
    1 < ([tileA, tileB] : List Img).length ∧
    (mkSheet defaultParams [tileA, tileB]).pix
        ((1 % defaultParams.columns) * defaultParams.crop_width + 3)
        ((1 / defaultParams.columns) * defaultParams.crop_height + 5) =
      tileB.pix 3 5 := by
  refine ⟨by decide, ?_⟩
  exact tile_placement_grid defaultParams [tileA, tileB] 1 (by decide)
    (by
      intro t ht
      simp only [List.mem_cons, List.mem_singleton, List.not_mem_nil,
        or_false] at ht
      rcases ht with h | h <;> rw [h] <;> exact ⟨rfl, rfl⟩)
    3 5 (by decide) (by decide)

theorem process_images_get (p : Params) (files : List UploadedFile)
    (hC : 0 < p.columns * p.rows) (k : Nat)
    (hk : k < (process_images p files).length) :
    (process_images p files).get ⟨k, hk⟩ =
      (mkSheet p
        (((croppedImages p files).drop (k * (p.columns * p.rows))).take
          (p.columns * p.rows)),
        sheetFilename (k + 1)) := by
  have h0 : process_images p files =
      buildGo p (croppedImages p files).length (croppedImages p files)
        (0 * (p.columns * p.rows)) := by
    simp [process_images]
  have hk2 : k < (buildGo p (croppedImages p files).length
      (croppedImages p files) (0 * (p.columns * p.rows))).length :=
    h0 ▸ hk
  rw [List.get_of_eq h0]
  rw [buildGo_get p hC _ _ 0 k hk2 (le_refl _)]
  simp

/-- C6: every produced sheet has width exactly `crop_width * columns` and
height exactly `crop_height * ceil(tileCountInSheet / columns)` (the
`k`-th sheet holding `min (columns * rows) (N - k * (columns * rows))`
tiles), and it is assembled by pasting its tiles onto a freshly allocated
raster every pixel of which is fully transparent. -/
theorem sheet_dims_transparent_base (p : Params) (files : List UploadedFile)
    (hC : 0 < p.columns * p.rows) (k : Nat)
    (hk : k < (process_images p files).length) :
    ((process_images p files).get ⟨k, hk⟩).1.width =
      p.crop_width * p.columns ∧
    ((process_images p files).get ⟨k, hk⟩).1.height =
      p.crop_height *
        ((min (p.columns * p.rows)
            ((croppedImages p files).length - k * (p.columns * p.rows)) +
          p.columns - 1) / p.columns) ∧
    ((process_images p files).get ⟨k, hk⟩).1 =
      placeTiles p.crop_width p.crop_height p.columns 0
        (((croppedImages p files).drop (k * (p.columns * p.rows))).take
          (p.columns * p.rows))
        (newImg (p.crop_width * p.columns)
          (p.crop_height * actualRows p.columns
            (((croppedImages p files).drop
                (k * (p.columns * p.rows))).take
              (p.columns * p.rows)).length)) ∧
    (∀ w h x y, (newImg w h).pix x y = Pixel.transparent) := by
  have hget := process_images_get p files hC k hk
  have hfst : ((process_images p files).get ⟨k, hk⟩).1 =
      mkSheet p
        (((croppedImages p files).drop (k * (p.columns * p.rows))).take
          (p.columns * p.rows)) := by
    rw [hget]
  have hlen : (((croppedImages p files).drop
      (k * (p.columns * p.rows))).take (p.columns * p.rows)).length =
      min (p.columns * p.rows)
        ((croppedImages p files).length - k * (p.columns * p.rows)) := by
    simp [List.length_take, List.length_drop]
  refine ⟨?_, ?_, ?_, fun w h x y => rfl⟩
  · rw [hfst]
    show (placeTiles p.crop_width p.crop_height p.columns 0 _
      (newImg (p.crop_width * p.columns) _)).width = _
    rw [placeTiles_width]
    rfl
  · rw [hfst]
    show (placeTiles p.crop_width p.crop_height p.columns 0 _
      (newImg (p.crop_width * p.columns)
        (p.crop_height * actualRows p.columns _))).height = _
    rw [placeTiles_height]
    show p.crop_height * actualRows p.columns _ = _
    rw [hlen]
    rfl
  · rw [hfst]
    rfl

/-- C6, witness: the single sheet of a one-tile batch (default layout)
is `576 × 144` — `144 * 4` wide, `144 * ceil(1/4)` tall — and the fresh
sheet raster is fully transparent. -/
theorem sheet_dims_transparent_base_witness :
    0 < defaultParams.columns * defaultParams.rows ∧
    (0 < (process_images defaultParams [file300]).length) ∧
    ∀ hk : 0 < (process_images defaultParams [file300]).length,
      ((process_images defaultParams [file300]).get ⟨0, hk⟩).1.width =
        576 ∧
      ((process_images defaultParams [file300]).get ⟨0, hk⟩).1.height =
        144 ∧
      (newImg 576 144).pix 7 9 = Pixel.transparent := by
  have hlen : (process_images defaultParams [file300]).length = 1 := by
    have h := (sheet_count_ceil defaultParams [file300] (by decide)).1
    rw [h]
    decide
  refine ⟨by decide, by omega, ?_⟩
  intro hk
  have h := sheet_dims_transparent_base defaultParams [file300]
    (by decide) 0 hk
  refine ⟨?_, ?_, h.2.2.2 576 144 7 9⟩
  · rw [h.1]
    decide
  · rw [h.2.1]
    decide

theorem digitChar_val (d : Nat) (hd : d < 10) :
    (Nat.digitChar d).toNat - '0'.toNat = d := by
  revert hd
  revert d
  decide

theorem charsVal_decRepr (n : Nat) : charsVal (decRepr n) = n := by
  by_cases h : n = 0
  · subst h
    decide
  · unfold charsVal decRepr
    rw [if_neg h, List.map_map]
    have h1 : ((Nat.digits 10 n).reverse.map
        ((fun c => c.toNat - '0'.toNat) ∘ Nat.digitChar)).reverse =
        (Nat.digits 10 n).map
          ((fun c => c.toNat - '0'.toNat) ∘ Nat.digitChar) := by
      rw [List.map_reverse, List.reverse_reverse]
    rw [h1]
    have h2 : (Nat.digits 10 n).map
        ((fun c => c.toNat - '0'.toNat) ∘ Nat.digitChar) =
        Nat.digits 10 n := by
      conv_rhs => rw [← List.map_id (Nat.digits 10 n)]
      exact List.map_congr_left
        (fun d hd => digitChar_val d (Nat.digits_lt_base (by norm_num) hd))
    rw [h2]
    exact Nat.ofDigits_digits 10 n

theorem charsVal_cons_zero (l : List Char) :
    charsVal ('0' :: l) = charsVal l := by
  unfold charsVal
  rw [List.map_cons, List.reverse_cons, Nat.ofDigits_append]
  norm_num [Nat.ofDigits]

theorem charsVal_pad2 (n : Nat) : charsVal (pad2 n) = n := by
  unfold pad2
  by_cases h : n < 10
  · rw [if_pos h, charsVal_cons_zero, charsVal_decRepr]
  · rw [if_neg h, charsVal_decRepr]

theorem decRepr_ne_nil (n : Nat) : decRepr n ≠ [] := by
  unfold decRepr
  by_cases h : n = 0
  · rw [if_pos h]
    simp
  · rw [if_neg h]
    simp [Nat.digits_ne_nil_iff_ne_zero.mpr h]

theorem two_le_pad2_length (n : Nat) : 2 ≤ (pad2 n).length := by
  unfold pad2
  by_cases h : n < 10
  · rw [if_pos h]
    have h1 : 0 < (decRepr n).length :=
      List.length_pos.mpr (decRepr_ne_nil n)
    simp only [List.length_cons]
    omega
  · rw [if_neg h]
    unfold decRepr
    rw [if_neg (by omega)]
    rw [List.length_map, List.length_reverse]
    rw [Nat.digits_def' (by norm_num : (1:Nat) < 10) (by omega : 0 < n)]
    simp only [List.length_cons]
    have h1 : 1 ≤ n / 10 :=
      (Nat.le_div_iff_mul_le (by norm_num)).mpr (by omega)
    have h2 : Nat.digits 10 (n / 10) ≠ [] :=
      Nat.digits_ne_nil_iff_ne_zero.mpr (by omega)
    have h3 := List.length_pos.mpr h2
    omega

theorem sheetFilename_inj (m n : Nat) (_hm : 1 ≤ m) (_hn : 1 ≤ n)
    (h : sheetFilename m = sheetFilename n) : m = n := by
  unfold sheetFilename at h
  by_cases h1 : m = 1 <;> by_cases h2 : n = 1
  · omega
  · exfalso
    rw [if_pos h1, if_neg h2] at h
    have hd : "Emo_sheet.png".data =
        "Emo_sheet_".data ++ pad2 n ++ ".png".data :=
      congrArg String.data h
    have hlen := congrArg List.length hd
    simp only [List.length_append] at hlen
    have e13 : ("Emo_sheet.png".data).length = 13 := rfl
    have e10 : ("Emo_sheet_".data).length = 10 := rfl
    have e4 : (".png".data).length = 4 := rfl
    have hp := two_le_pad2_length n
    rw [e13, e10, e4] at hlen
    omega
  · exfalso
    rw [if_neg h1, if_pos h2] at h
    have hd : "Emo_sheet.png".data =
        "Emo_sheet_".data ++ pad2 m ++ ".png".data :=
      (congrArg String.data h).symm
    have hlen := congrArg List.length hd
    simp only [List.length_append] at hlen
    have e13 : ("Emo_sheet.png".data).length = 13 := rfl
    have e10 : ("Emo_sheet_".data).length = 10 := rfl
    have e4 : (".png".data).length = 4 := rfl
    have hp := two_le_pad2_length m
    rw [e13, e10, e4] at hlen
    omega
  · rw [if_neg h1, if_neg h2] at h
    have hd : "Emo_sheet_".data ++ pad2 m ++ ".png".data =
        "Emo_sheet_".data ++ pad2 n ++ ".png".data := by
      injection h
    have hA := List.append_cancel_right hd
    have hB := List.append_cancel_left hA
    have hv := congrArg charsVal hB
    rw [charsVal_pad2, charsVal_pad2] at hv
    exact hv

/-- C7: the first sheet of a batch is named with the fixed base name
`"Emo_sheet.png"`, and for every `k ≥ 2` the `k`-th sheet (in creation
order) is named with the base name plus a two-digit zero-padded decimal
suffix denoting exactly `k`. -/
theorem sheet_filenames_law (p : Params) (files : List UploadedFile)
    (hC : 0 < p.columns * p.rows) :
    (∀ h0 : 0 < (process_images p files).length,
      ((process_images p files).get ⟨0, h0⟩).2 = "Emo_sheet.png") ∧
    (∀ k, 2 ≤ k → ∀ hk : k - 1 < (process_images p files).length,
      ((process_images p files).get ⟨k - 1, hk⟩).2 =
        String.mk ("Emo_sheet_".data ++ pad2 k ++ ".png".data) ∧
      charsVal (pad2 k) = k ∧ 2 ≤ (pad2 k).length) := by
  constructor
  · intro h0
    have h := process_images_get p files hC 0 h0
    rw [h]
    rfl
  · intro k hk2 hk
    have h := process_images_get p files hC (k - 1) hk
    rw [h]
    refine ⟨?_, charsVal_pad2 k, two_le_pad2_length k⟩
    show sheetFilename (k - 1 + 1) = _
    have e : k - 1 + 1 = k := by omega
    rw [e]
    unfold sheetFilename
    rw [if_neg (by omega)]

/-- C7, witness: with capacity 1, two good images give two sheets named
`"Emo_sheet.png"` and `"Emo_sheet_02.png"`. -/
theorem sheet_filenames_law_witness :
    0 < smallParams.columns * smallParams.rows ∧
    (∀ h0 : 0 < (process_images smallParams [file300, file300]).length,
      ((process_images smallParams [file300, file300]).get ⟨0, h0⟩).2 =
        "Emo_sheet.png") ∧
    (∀ hk : 1 < (process_images smallParams [file300, file300]).length,
      ((process_images smallParams [file300, file300]).get ⟨1, hk⟩).2 =
        String.mk ("Emo_sheet_".data ++ pad2 2 ++ ".png".data)) := by
  have h := sheet_filenames_law smallParams [file300, file300] (by decide)
  exact ⟨by decide, h.1, fun hk => (h.2 2 (by omega) hk).1⟩

/-- C10: the filenames attached to the sheets of any batch are pairwise
distinct (the numbered suffix is injective in the sheet number and never
collides with the unsuffixed base name), so archive entry names never
collide. -/
theorem filenames_pairwise_distinct (p : Params)
    (files : List UploadedFile) (hC : 0 < p.columns * p.rows) :
    ((process_images p files).map Prod.snd).Pairwise
      (fun a b => a ≠ b) := by
  rw [List.pairwise_map, List.pairwise_iff_get]
  intro i j hij
  obtain ⟨i, hi⟩ := i
  obtain ⟨j, hj⟩ := j
  have hij2 : i < j := hij
  rw [process_images_get p files hC i hi,
    process_images_get p files hC j hj]
  intro hc
  have hinj := sheetFilename_inj (i + 1) (j + 1) (by omega) (by omega) hc
  omega

/-- C10, witness: with capacity 1 and two good images, the two sheet
filenames are pairwise distinct. -/
theorem filenames_pairwise_distinct_witness :
    0 < smallParams.columns * smallParams.rows ∧
    ((process_images smallParams [file300, file300]).map
      Prod.snd).Pairwise (fun a b => a ≠ b) :=
  ⟨by decide, filenames_pairwise_distinct smallParams [file300, file300]
    (by decide)⟩

theorem create_zip_foldl (l : List (Img × String)) :
    ∀ acc : List ZipEntry,
      l.foldl (fun st e => writestr st e.2 (pngEncode e.1)) acc =
        acc ++ l.map (fun e => ⟨e.2, pngEncode e.1⟩) := by
  induction l with
  | nil => intro acc; simp
  | cons e l ih =>
    intro acc
    simp only [List.foldl_cons, List.map_cons]
    rw [ih]
    simp [writestr, List.append_assoc]

theorem pngPixel_encode (img : Img) (x y : Nat) (hx : x < img.width)
    (hy : y < img.height) :
    pngPixel (pngEncode img) x y = img.pix x y := by
  unfold pngPixel pngEncode
  rw [List.getD_eq_getElem _ [] (by simpa using hy)]
  simp only [List.getElem_map, List.getElem_range]
  rw [List.getD_eq_getElem _ Pixel.transparent (by simpa using hx)]
  simp only [List.getElem_map, List.getElem_range]

/-- C8: the archive contains exactly one entry per (sheet, filename)
pair, in input order, each entry named by its pair's filename and holding
the PNG encoding of its sheet, so the entry count equals the sheet count
and the filename-to-payload association is the same as encoding each
sheet individually; the modelled PNG encoding is lossless and
alpha-preserving (it determines the sheet's exact dimensions and every
pixel, alpha included). -/
theorem zip_entries_match_sheets (sheets : List (Img × String)) :
    create_zip_file sheets =
      sheets.map (fun e => ⟨e.2, pngEncode e.1⟩) ∧
    (create_zip_file sheets).length = sheets.length ∧
    (create_zip_file sheets).map ZipEntry.name = sheets.map Prod.snd ∧
    (∀ img : Img, (pngEncode img).width = img.width ∧
      (pngEncode img).height = img.height ∧
      ∀ x y, x < img.width → y < img.height →
        pngPixel (pngEncode img) x y = img.pix x y) := by
  have hmap : create_zip_file sheets =
      sheets.map (fun e => ⟨e.2, pngEncode e.1⟩) := by
    unfold create_zip_file
    rw [create_zip_foldl sheets []]
    rfl
  refine ⟨hmap, ?_, ?_, ?_⟩
  · rw [hmap, List.length_map]
  · rw [hmap, List.map_map]
    rfl
  · intro img
    exact ⟨rfl, rfl, fun x y hx hy => pngPixel_encode img x y hx hy⟩

/-- C8, witness: archiving two named sheets yields two entries carrying
those names in order, and the first payload decodes back to the sheet's
pixel at `(3, 5)`. -/
theorem zip_entries_match_sheets_witness :
    (create_zip_file
      [(tileA, "Emo_sheet.png"), (tileB, "Emo_sheet_02.png")]).length = 2 ∧
    (create_zip_file
      [(tileA, "Emo_sheet.png"), (tileB, "Emo_sheet_02.png")]).map
        ZipEntry.name = ["Emo_sheet.png", "Emo_sheet_02.png"] ∧
    (3 < tileA.width ∧ 5 < tileA.height) ∧
    pngPixel (pngEncode tileA) 3 5 = tileA.pix 3 5 := by
  have h := zip_entries_match_sheets
    [(tileA, "Emo_sheet.png"), (tileB, "Emo_sheet_02.png")]
  refine ⟨?_, ?_, ⟨by decide, by decide⟩, ?_⟩
  · rw [h.2.1]
    rfl
  · rw [h.2.2.1]
    rfl
  · exact (h.2.2.2 tileA).2.2 3 5 (by decide) (by decide)
